import Mathlib

/-!
Verification of the identity-and-access query service.

Data model and operations are shallowly embedded from the Python source:
  * `models.py`   — entities User, Group, Role, Permission, Application and
                    their many-to-many relations (here: entity structures
                    holding lists of related entities, row identity modelled
                    by an `id` field).
  * `api.py`      — HTTP resolver `check_access` (404 on unknown user/app,
                    permissions rendered "resource: action", sorted).
  * `manage_access.py` — CLI resolver `check_access` (prints an error line on
                    unknown user/app, permissions rendered "resource:action",
                    sorted) and `main` (usage exit 1 on wrong argc).
  * `idp_sync.py` — `run_sync` step sequence and
                    `assign_permissions_to_groups`.
-/

namespace AccessService

/-- A permission row: unique `name`, with `resource` and `action` strings.
The `id` field models relational row identity. -/
structure Permission where
  id : Nat
  name : String
  resource : String
  action : String
deriving DecidableEq, Repr

/-- An application row: unique `name` and a `description`. -/
structure Application where
  id : Nat
  name : String
  description : String
deriving DecidableEq, Repr

/-- A group row with its granted permissions (`group_permissions` relation)
and authorized applications (`group_applications` relation). -/
structure Group where
  id : Nat
  name : String
  idpId : String
  permissions : List Permission
  applications : List Application
deriving DecidableEq, Repr

/-- A user row with its groups (`user_groups`) and directly granted
permissions (`user_permissions`). Roles are not consulted by resolution. -/
structure User where
  id : Nat
  username : String
  email : String
  idpId : String
  groups : List Group
  permissions : List Permission
deriving DecidableEq, Repr

/-- The directory store contents the resolver queries: the `users` and
`applications` tables (related rows are reachable through the entities). -/
structure Store where
  users : List User
  applications : List Application
deriving DecidableEq, Repr

/-- `session.query(User).filter_by(username=username).first()` -/
def findUserByUsername (s : Store) (username : String) : Option User :=
  s.users.find? (fun u => u.username == username)

/-- `session.query(Application).filter_by(name=application).first()` -/
def findApplicationByName (s : Store) (application : String) : Option Application :=
  s.applications.find? (fun a => a.name == application)

/-- `all_permissions.add(permission)`: Python set insertion, deduplicating by
entity identity. Modelled as append-if-absent on a duplicate-free list. -/
def insertPerm (ps : List Permission) (p : Permission) : List Permission :=
  if p ∈ ps then ps else ps ++ [p]

/-- One iteration of the `for group in user.groups` loop of `check_access`:
if the target application is in the group's applications, record access and
add every permission granted to the group. -/
def groupStep (app : Application) (acc : Bool × List Permission)
    (group : Group) : Bool × List Permission :=
  if app ∈ group.applications then
    (true, group.permissions.foldl insertPerm acc.2)
  else
    acc

/-- The resolver core shared verbatim by `api.py` and `manage_access.py`
(lines 58–72 resp. 24–38): scan the user's groups for access and group
permissions, then unconditionally add the user's direct permissions. -/
def resolveCore (user : User) (app : Application) : Bool × List Permission :=
  let acc := user.groups.foldl (groupStep app) (false, [])
  (acc.1, user.permissions.foldl insertPerm acc.2)

/-- The deduplicated set of permission entities collected by a resolution. -/
def collectedPermissions (user : User) (app : Application) : List Permission :=
  (resolveCore user app).2

/-- Whether the resolution reports access. -/
def resolvedAccess (user : User) (app : Application) : Bool :=
  (resolveCore user app).1

/-- Python's `<=` on strings: lexicographic comparison of the character
sequences (by code point), as performed by `list.sort()` on `str`. -/
def pyCharListLe : List Char → List Char → Bool
  | [], _ => true
  | _ :: _, [] => false
  | a :: as, b :: bs =>
    if a < b then true
    else if b < a then false
    else pyCharListLe as bs

/-- Python string comparison lifted to `String`. -/
def pyStrLe (a b : String) : Bool :=
  pyCharListLe a.toList b.toList

/-- The ordering relation `list.sort()` sorts by. -/
def pyLe (a b : String) : Prop :=
  pyStrLe a b = true

instance : DecidableRel pyLe :=
  fun a b => inferInstanceAs (Decidable (pyStrLe a b = true))

/-- `api.py` line 76: `f"{p.resource}: {p.action}"` (colon, one space). -/
def fmtApi (p : Permission) : String :=
  p.resource ++ ": " ++ p.action

/-- `manage_access.py` line 41: `f"{p.resource}:{p.action}"` (no space). -/
def fmtCli (p : Permission) : String :=
  p.resource ++ ":" ++ p.action

/-- The sorted permission-string list returned by the HTTP resolver
(`api.py` lines 75–81). -/
def apiPermissionStrings (user : User) (app : Application) : List String :=
  List.insertionSort pyLe ((collectedPermissions user app).map fmtApi)

/-- The sorted `permission_list` built by the CLI resolver
(`manage_access.py` lines 41–42). -/
def cliPermissionList (user : User) (app : Application) : List String :=
  List.insertionSort pyLe ((collectedPermissions user app).map fmtCli)

/-- The two `HTTPException(status_code=404, ...)` failures of the HTTP
resolver; each carries the identifier whose lookup failed. -/
inductive AccessError where
  | userNotFound (username : String)
  | applicationNotFound (application : String)
deriving DecidableEq, Repr

/-- The `AccessResponse` pydantic model of `api.py`. -/
structure AccessResponse where
  username : String
  application : String
  access : Bool
  permissions : List String
deriving DecidableEq, Repr

instance {ε α : Type} [DecidableEq ε] [DecidableEq α] :
    DecidableEq (Except ε α) := fun x y =>
  match x, y with
  | .error a, .error b =>
    if h : a = b then .isTrue (by rw [h])
    else .isFalse (fun hc => h (by cases hc; rfl))
  | .error _, .ok _ => .isFalse (fun hc => by cases hc)
  | .ok _, .error _ => .isFalse (fun hc => by cases hc)
  | .ok a, .ok b =>
    if h : a = b then .isTrue (by rw [h])
    else .isFalse (fun hc => h (by cases hc; rfl))

/-- `api.py` `check_access`: look up user then application (404 on either
miss), run the resolver core, return the response with sorted formatted
permissions. -/
def apiCheckAccess (s : Store) (username application : String) :
    Except AccessError AccessResponse :=
  match findUserByUsername s username with
  | none => .error (.userNotFound username)
  | some user =>
    match findApplicationByName s application with
    | none => .error (.applicationNotFound application)
    | some app =>
      .ok { username := username
            application := application
            access := resolvedAccess user app
            permissions := apiPermissionStrings user app }

/-- The four possible print outcomes of the CLI `check_access`
(`manage_access.py` lines 14–48), each carrying the data interpolated into
the printed line. The denied line prints no permission list. -/
inductive CliOutput where
  | errUserNotFound (username : String)
  | errAppNotFound (application : String)
  | accessGranted (username application : String) (permissionList : List String)
  | accessDenied (username application : String)
deriving DecidableEq, Repr

/-- `manage_access.py` `check_access`: same lookups and core as the HTTP
resolver, but CLI formatting and a permissionless denied line. -/
def cliCheckAccess (s : Store) (username application : String) : CliOutput :=
  match findUserByUsername s username with
  | none => .errUserNotFound username
  | some user =>
    match findApplicationByName s application with
    | none => .errAppNotFound application
    | some app =>
      if resolvedAccess user app then
        .accessGranted username application (cliPermissionList user app)
      else
        .accessDenied username application

/-- Result of a CLI invocation: either the usage message (wrong argument
count) or a `check_access` run. -/
inductive CliResult where
  | usage
  | ran (out : CliOutput)
deriving DecidableEq, Repr

/-- `manage_access.py` `main`: `sys.exit(1)` when `len(sys.argv) != 3`,
otherwise run `check_access(argv[1], argv[2])` and exit normally (status 0).
`argv` includes the program name, as in Python. -/
def cliMain (argv : List String) (s : Store) : CliResult × Nat :=
  if argv.length ≠ 3 then
    (.usage, 1)
  else
    (.ran (cliCheckAccess s (argv.getD 1 "") (argv.getD 2 "")), 0)

/-! ### State-passing session model (for the frame property)

The resolver issues only `session.query(...).first()` reads and relation
traversals, then `session.close()`. Each session operation is modelled as a
function returning its result together with the (possibly updated) store;
the read operations are defined from the source queries, which touch no
table. -/

/-- The read `session.query(User).filter_by(...).first()` as a session
operation: returns the row and the store it leaves behind. -/
def queryUserSt (username : String) (s : Store) : Option User × Store :=
  (findUserByUsername s username, s)

/-- The read `session.query(Application).filter_by(...).first()` as a
session operation. -/
def queryApplicationSt (application : String) (s : Store) :
    Option Application × Store :=
  (findApplicationByName s application, s)

/-- `api.py` `check_access` with the session state threaded explicitly
through every store operation it performs. -/
def apiCheckAccessSt (s : Store) (username application : String) :
    Except AccessError AccessResponse × Store :=
  let (u, s1) := queryUserSt username s
  match u with
  | none => (.error (.userNotFound username), s1)
  | some user =>
    let (a, s2) := queryApplicationSt application s1
    match a with
    | none => (.error (.applicationNotFound application), s2)
    | some app =>
      (.ok { username := username
             application := application
             access := resolvedAccess user app
             permissions := apiPermissionStrings user app }, s2)

/-- `manage_access.py` `check_access` with the session state threaded
explicitly. -/
def cliCheckAccessSt (s : Store) (username application : String) :
    CliOutput × Store :=
  let (u, s1) := queryUserSt username s
  match u with
  | none => (.errUserNotFound username, s1)
  | some user =>
    let (a, s2) := queryApplicationSt application s1
    match a with
    | none => (.errAppNotFound application, s2)
    | some app =>
      if resolvedAccess user app then
        (.accessGranted username application (cliPermissionList user app), s2)
      else
        (.accessDenied username application, s2)

/-! ### Provider sync (`idp_sync.py`) -/

/-- The seven steps `run_sync` invokes in order. -/
inductive SyncStep where
  | syncUsers
  | createSampleGroups
  | assignUsersToGroups
  | createSampleApplications
  | assignGroupsToApps
  | createSamplePermissions
  | assignPermissionsToGroups
deriving DecidableEq, Repr

/-- The order of steps in `run_sync` (lines 292–312). -/
def syncStepList : List SyncStep :=
  [.syncUsers, .createSampleGroups, .assignUsersToGroups,
   .createSampleApplications, .assignGroupsToApps,
   .createSamplePermissions, .assignPermissionsToGroups]

/-- Environment of one sync run: whether `get_access_token` succeeds, and
which steps raise an exception when invoked. -/
structure SyncEnv where
  tokenOk : Bool
  raises : SyncStep → Bool

/-- The log line printed by `get_access_token` on failure
(`Failed to get token`). -/
def tokenFailMsg : String := "Failed to get token"

/-- The log line printed by the `except` clause of `run_sync`
(`Error during sync`). -/
def syncErrorMsg : String := "Error during sync"

/-- Observable outcome of a sync run: the steps that were invoked, the
steps whose `session.commit()` was reached, and the failure log lines. -/
structure SyncResult where
  executed : List SyncStep
  committed : List SyncStep
  log : List String
deriving DecidableEq, Repr

/-- Run the steps of `run_sync` in order. A step that raises is caught by
the `except` clause: the error is logged and no further step runs; state
committed by earlier steps is left as is. `sync_users` with a failed token
acquisition logs the failure and returns 0 before its commit — the run
continues with the next step. Every other completed step commits. -/
def runSteps (env : SyncEnv) : List SyncStep → SyncResult
  | [] => ⟨[], [], []⟩
  | step :: rest =>
    if env.raises step then
      ⟨[step], [], [syncErrorMsg]⟩
    else if step = SyncStep.syncUsers ∧ env.tokenOk = false then
      let t := runSteps env rest
      ⟨step :: t.executed, t.committed, tokenFailMsg :: t.log⟩
    else
      let t := runSteps env rest
      ⟨step :: t.executed, step :: t.committed, t.log⟩

/-- `run_sync`: execute the seven steps in order inside one try/except. -/
def runSync (env : SyncEnv) : SyncResult :=
  runSteps env syncStepList

/-- A sync environment where the Auth0 token acquisition fails and no step
raises. -/
def envTokenFail : SyncEnv := ⟨false, fun _ => false⟩

/-- A sync environment where the token is obtained but the
create-applications step raises an exception. -/
def envRaiseApps : SyncEnv :=
  ⟨true, fun t => t == SyncStep.createSampleApplications⟩

/-- Scan of `pyIn`: does `sub` occur contiguously in the scanned list? -/
def pyInChars (sub : List Char) : List Char → Bool
  | [] => sub.isEmpty
  | c :: rest => sub.isPrefixOf (c :: rest) || pyInChars sub rest

/-- Python's substring test `sub in s`, on the underlying character
sequences. -/
def strContains (s sub : String) : Bool :=
  pyInChars sub.toList s.toList

/-- Python's `str.lower()`: lowercase every character. -/
def pyLower (s : String) : String :=
  ⟨s.toList.map Char.toLower⟩

/-- `Auth0SyncService.assign_permissions_to_groups` (lines 234–256): for
every group, wholesale-replace `group.permissions` by rule on the group
name — names containing "admin" get all permissions, else names containing
"editor" get the permissions whose name contains "Write", else the
permissions whose name contains "Read". -/
def assignGroupRule (permissions : List Permission) (group : Group) : Group :=
  if strContains (pyLower group.name) "admin" then
    { group with permissions := permissions }
  else if strContains (pyLower group.name) "editor" then
    { group with permissions :=
        permissions.filter (fun p => strContains p.name "Write") }
  else
    { group with permissions :=
        permissions.filter (fun p => strContains p.name "Read") }

/-- The loop of `assign_permissions_to_groups` over all groups. -/
def assignPermissionsToGroups (groups : List Group)
    (permissions : List Permission) : List Group :=
  groups.map (assignGroupRule permissions)

/-! ### A concrete directory store, mirroring the seeded demo data -/

/-- The `Docs:Read` permission row. -/
def pDocsRead : Permission := ⟨1, "Docs:Read", "Docs", "Read"⟩

/-- The `Docs:Write` permission row. -/
def pDocsWrite : Permission := ⟨2, "Docs:Write", "Docs", "Write"⟩

/-- The `Sheets:Read` permission row. -/
def pSheetsRead : Permission := ⟨3, "Sheets:Read", "Sheets", "Read"⟩

/-- The `Sheets:Write` permission row. -/
def pSheetsWrite : Permission := ⟨4, "Sheets:Write", "Sheets", "Write"⟩

/-- The `Google` application row. -/
def appGoogle : Application := ⟨1, "Google", "Google Workspace"⟩

/-- The `Slack` application row. -/
def appSlack : Application := ⟨2, "Slack", "Slack Workspace"⟩

/-- The `Admins` group: granted the Docs permissions, authorized for both
applications. -/
def gAdmins : Group :=
  ⟨1, "Admins", "group_admins", [pDocsRead, pDocsWrite], [appGoogle, appSlack]⟩

/-- The `Editors` group: also grants `Docs:Write`, authorized for Google. -/
def gEditors : Group :=
  ⟨2, "Editors", "group_editors", [pDocsWrite, pSheetsWrite], [appGoogle]⟩

/-- The `Viewers` group: grants read permissions, authorized for nothing. -/
def gViewers : Group :=
  ⟨3, "Viewers", "group_viewers", [pDocsRead, pSheetsRead], []⟩

/-- `alice`: in Admins and Editors, direct permission `Sheets:Read`. -/
def uAlice : User :=
  ⟨1, "alice", "alice@example.com", "idp_alice", [gAdmins, gEditors],
   [pSheetsRead]⟩

/-- `carol`: in no group, direct permission `Sheets:Read`. -/
def uCarol : User :=
  ⟨2, "carol", "carol@example.com", "idp_carol", [], [pSheetsRead]⟩

/-- `dave`: in Viewers only (no authorized application), no direct
permissions. -/
def uDave : User :=
  ⟨3, "dave", "dave@example.com", "idp_dave", [gViewers], []⟩

/-- The demo store holding the three users and two applications. -/
def demoStore : Store :=
  ⟨[uAlice, uCarol, uDave], [appGoogle, appSlack]⟩

/-! ### Helper lemmas -/

theorem mem_insertPerm (ps : List Permission) (p q : Permission) :
    q ∈ insertPerm ps p ↔ q ∈ ps ∨ q = p := by
  unfold insertPerm
  split
  · rename_i hmem
    constructor
    · exact Or.inl
    · rintro (h | rfl)
      · exact h
      · exact hmem
  · simp [List.mem_append]

theorem nodup_insertPerm (ps : List Permission) (p : Permission)
    (h : ps.Nodup) : (insertPerm ps p).Nodup := by
  unfold insertPerm
  split
  · exact h
  · rename_i hmem
    simpa [List.nodup_append, h] using hmem

theorem mem_foldl_insertPerm (ps : List Permission) :
    ∀ (acc : List Permission) (q : Permission),
      q ∈ ps.foldl insertPerm acc ↔ q ∈ acc ∨ q ∈ ps := by
  induction ps with
  | nil => simp
  | cons p ps ih =>
    intro acc q
    simp only [List.foldl_cons, ih, mem_insertPerm, List.mem_cons]
    tauto

theorem nodup_foldl_insertPerm (ps : List Permission) :
    ∀ acc : List Permission, acc.Nodup → (ps.foldl insertPerm acc).Nodup := by
  induction ps with
  | nil => exact fun _ h => h
  | cons p ps ih =>
    intro acc hacc
    exact ih _ (nodup_insertPerm _ _ hacc)

theorem foldl_groupStep_fst (app : Application) (gs : List Group) :
    ∀ acc : Bool × List Permission,
      (gs.foldl (groupStep app) acc).1 =
        (acc.1 || gs.any fun g => app ∈ g.applications) := by
  induction gs with
  | nil => simp
  | cons g gs ih =>
    intro acc
    simp only [List.foldl_cons, List.any_cons, groupStep]
    split
    · rename_i hmem
      simp [ih, hmem]
    · rename_i hmem
      simp [ih, hmem]

theorem foldl_groupStep_snd_mem (app : Application) (gs : List Group) :
    ∀ (acc : Bool × List Permission) (q : Permission),
      q ∈ (gs.foldl (groupStep app) acc).2 ↔
        q ∈ acc.2 ∨ ∃ g ∈ gs, app ∈ g.applications ∧ q ∈ g.permissions := by
  induction gs with
  | nil => simp
  | cons g gs ih =>
    intro acc q
    simp only [List.foldl_cons, List.mem_cons, groupStep]
    split
    · rename_i hmem
      simp only [ih, mem_foldl_insertPerm]
      constructor
      · rintro ((h | h) | ⟨g2, hg2, hg2app, hg2q⟩)
        · exact Or.inl h
        · exact Or.inr ⟨g, Or.inl rfl, hmem, h⟩
        · exact Or.inr ⟨g2, Or.inr hg2, hg2app, hg2q⟩
      · rintro (h | ⟨g2, (rfl | hg2), hg2app, hg2q⟩)
        · exact Or.inl (Or.inl h)
        · exact Or.inl (Or.inr hg2q)
        · exact Or.inr ⟨g2, hg2, hg2app, hg2q⟩
    · rename_i hmem
      simp only [ih]
      constructor
      · rintro (h | ⟨g2, hg2, hg2app, hg2q⟩)
        · exact Or.inl h
        · exact Or.inr ⟨g2, Or.inr hg2, hg2app, hg2q⟩
      · rintro (h | ⟨g2, (rfl | hg2), hg2app, hg2q⟩)
        · exact Or.inl h
        · exact absurd hg2app hmem
        · exact Or.inr ⟨g2, hg2, hg2app, hg2q⟩

theorem foldl_groupStep_snd_nodup (app : Application) (gs : List Group) :
    ∀ acc : Bool × List Permission, acc.2.Nodup →
      (gs.foldl (groupStep app) acc).2.Nodup := by
  induction gs with
  | nil => exact fun _ h => h
  | cons g gs ih =>
    intro acc hacc
    simp only [List.foldl_cons, groupStep]
    split
    · exact ih _ (nodup_foldl_insertPerm _ _ hacc)
    · exact ih _ hacc

theorem resolvedAccess_iff (user : User) (app : Application) :
    resolvedAccess user app = true ↔
      ∃ g ∈ user.groups, app ∈ g.applications := by
  simp [resolvedAccess, resolveCore, foldl_groupStep_fst, List.any_eq_true]

theorem mem_collectedPermissions (user : User) (app : Application)
    (q : Permission) :
    q ∈ collectedPermissions user app ↔
      (∃ g ∈ user.groups, app ∈ g.applications ∧ q ∈ g.permissions) ∨
        q ∈ user.permissions := by
  simp only [collectedPermissions, resolveCore, mem_foldl_insertPerm,
    foldl_groupStep_snd_mem]
  simp

theorem nodup_collectedPermissions (user : User) (app : Application) :
    (collectedPermissions user app).Nodup := by
  simp only [collectedPermissions, resolveCore]
  exact nodup_foldl_insertPerm _ _
    (foldl_groupStep_snd_nodup _ _ _ List.nodup_nil)

theorem pyCharListLe_iff : ∀ as bs : List Char,
    pyCharListLe as bs = true ↔ ¬ List.Lex (· < ·) bs as
  | [], bs =>
    iff_of_true rfl (List.Lex.not_nil_right _ _)
  | _ :: _, [] =>
    iff_of_false (by simp [pyCharListLe]) (fun h => h List.Lex.nil)
  | a :: as, b :: bs => by
    unfold pyCharListLe
    rcases lt_trichotomy a b with hab | rfl | hba
    · rw [if_pos hab]
      refine iff_of_true rfl (fun hlex => ?_)
      cases hlex with
      | cons h2 => exact lt_irrefl _ hab
      | rel h2 => exact asymm hab h2
    · rw [if_neg (lt_irrefl a), if_neg (lt_irrefl a)]
      exact (pyCharListLe_iff as bs).trans (not_congr List.Lex.cons_iff).symm
    · rw [if_neg (asymm hba), if_pos hba]
      exact iff_of_false (by simp) (fun h => h (List.Lex.rel hba))

theorem pyStrLe_iff_le (a b : String) : pyStrLe a b = true ↔ a ≤ b := by
  rw [pyStrLe, pyCharListLe_iff, String.le_iff_toList_le]
  exact (not_lt (a := b.toList) (b := a.toList))

theorem pyLe_iff_le (a b : String) : pyLe a b ↔ a ≤ b :=
  pyStrLe_iff_le a b

instance : IsTotal String pyLe :=
  ⟨fun a b => by
    rw [pyLe_iff_le, pyLe_iff_le]
    exact le_total a b⟩

instance : IsTrans String pyLe :=
  ⟨fun a b c hab hbc => by
    rw [pyLe_iff_le] at hab hbc ⊢
    exact le_trans hab hbc⟩

theorem sorted_apiPermissionStrings (user : User) (app : Application) :
    (apiPermissionStrings user app).Sorted (· ≤ ·) :=
  (List.sorted_insertionSort pyLe _).imp fun h => (pyLe_iff_le _ _).mp h

theorem sorted_cliPermissionList (user : User) (app : Application) :
    (cliPermissionList user app).Sorted (· ≤ ·) :=
  (List.sorted_insertionSort pyLe _).imp fun h => (pyLe_iff_le _ _).mp h

theorem apiPermissionStrings_perm (user : User) (app : Application) :
    (apiPermissionStrings user app).Perm
      ((collectedPermissions user app).map fmtApi) :=
  List.perm_insertionSort pyLe _

theorem cliPermissionList_perm (user : User) (app : Application) :
    (cliPermissionList user app).Perm
      ((collectedPermissions user app).map fmtCli) :=
  List.perm_insertionSort pyLe _

theorem apiCheckAccess_ok (s : Store) (un an : String) (user : User)
    (app : Application) (hu : findUserByUsername s un = some user)
    (ha : findApplicationByName s an = some app) :
    apiCheckAccess s un an =
      .ok ⟨un, an, resolvedAccess user app, apiPermissionStrings user app⟩ := by
  simp [apiCheckAccess, hu, ha]

/-! ### Claims -/

/-- C1: whenever both lookups succeed, every permission directly granted to
the user appears (formatted) in the returned permission list, for every
store — in particular regardless of whether the access flag is true. -/
theorem direct_permissions_always_reported (s : Store) (un an : String)
    (user : User) (app : Application)
    (hu : findUserByUsername s un = some user)
    (ha : findApplicationByName s an = some app) :
    ∃ r, apiCheckAccess s un an = .ok r ∧
      ∀ p ∈ user.permissions, fmtApi p ∈ r.permissions := by
  refine ⟨_, apiCheckAccess_ok s un an user app hu ha, ?_⟩
  intro p hp
  have hmem : p ∈ collectedPermissions user app :=
    (mem_collectedPermissions user app p).mpr (Or.inr hp)
  exact (apiPermissionStrings_perm user app).mem_iff.mpr
    (List.mem_map_of_mem fmtApi hmem)

/-- C1 witness: `carol` is in no group, so her access is false, yet her
direct `Sheets:Read` permission is reported. -/
theorem direct_permissions_always_reported_witness :
    ∃ r, apiCheckAccess demoStore "carol" "Google" = .ok r ∧
      ∀ p ∈ uCarol.permissions, fmtApi p ∈ r.permissions :=
  direct_permissions_always_reported demoStore "carol" "Google" uCarol
    appGoogle (by decide) (by decide)

/-- C2: whenever both lookups succeed, the returned access flag is true iff
the user belongs to some group whose authorized applications contain the
target application. -/
theorem access_iff_authorized_group (s : Store) (un an : String)
    (user : User) (app : Application)
    (hu : findUserByUsername s un = some user)
    (ha : findApplicationByName s an = some app) :
    ∃ r, apiCheckAccess s un an = .ok r ∧
      (r.access = true ↔ ∃ g ∈ user.groups, app ∈ g.applications) :=
  ⟨_, apiCheckAccess_ok s un an user app hu ha, resolvedAccess_iff user app⟩

/-- C2 witness: `alice` is in `Admins`, which is authorized for `Google`. -/
theorem access_iff_authorized_group_witness :
    ∃ r, apiCheckAccess demoStore "alice" "Google" = .ok r ∧
      (r.access = true ↔ ∃ g ∈ uAlice.groups, appGoogle ∈ g.applications) :=
  access_iff_authorized_group demoStore "alice" "Google" uAlice appGoogle
    (by decide) (by decide)

/-- C3: an unknown username yields the explicit user-not-found failure on
both surfaces, and a known username with an unknown application yields the
explicit application-not-found failure — never an ok/denied result. -/
theorem notFound_surfaced (s : Store) (un an : String) :
    (findUserByUsername s un = none →
      apiCheckAccess s un an = .error (.userNotFound un) ∧
      cliCheckAccess s un an = .errUserNotFound un) ∧
    (∀ user, findUserByUsername s un = some user →
      findApplicationByName s an = none →
      apiCheckAccess s un an = .error (.applicationNotFound an) ∧
      cliCheckAccess s un an = .errAppNotFound an) := by
  constructor
  · intro hu
    constructor <;> simp [apiCheckAccess, cliCheckAccess, hu]
  · intro user hu ha
    constructor <;> simp [apiCheckAccess, cliCheckAccess, hu, ha]

/-- C3 witness: unknown user `zed`; known user `alice` with unknown
application `Trello`. -/
theorem notFound_surfaced_witness :
    (apiCheckAccess demoStore "zed" "Google" = .error (.userNotFound "zed") ∧
     cliCheckAccess demoStore "zed" "Google" = .errUserNotFound "zed") ∧
    (apiCheckAccess demoStore "alice" "Trello" =
        .error (.applicationNotFound "Trello") ∧
     cliCheckAccess demoStore "alice" "Trello" = .errAppNotFound "Trello") :=
  ⟨(notFound_surfaced demoStore "zed" "Google").1 (by decide),
   (notFound_surfaced demoStore "alice" "Trello").2 uAlice (by decide)
     (by decide)⟩

/-- C4: the collected permission set is duplicate-free, a permission is in
it iff it is reachable (via an authorized group or directly), and the
returned strings are exactly the formatted images of that entity set —
deduplication happens on permission identity, before formatting. -/
theorem permissions_dedup_by_identity (s : Store) (un an : String)
    (user : User) (app : Application)
    (hu : findUserByUsername s un = some user)
    (ha : findApplicationByName s an = some app) :
    ∃ r, apiCheckAccess s un an = .ok r ∧
      (collectedPermissions user app).Nodup ∧
      (∀ p, p ∈ collectedPermissions user app ↔
        ((∃ g ∈ user.groups, app ∈ g.applications ∧ p ∈ g.permissions) ∨
          p ∈ user.permissions)) ∧
      r.permissions.Perm ((collectedPermissions user app).map fmtApi) :=
  ⟨_, apiCheckAccess_ok s un an user app hu ha,
    nodup_collectedPermissions user app,
    mem_collectedPermissions user app,
    apiPermissionStrings_perm user app⟩

/-- C4 witness: `alice` reaches `Docs:Write` through both `Admins` and
`Editors`, yet the collected set is duplicate-free. -/
theorem permissions_dedup_by_identity_witness :
    ∃ r, apiCheckAccess demoStore "alice" "Google" = .ok r ∧
      (collectedPermissions uAlice appGoogle).Nodup ∧
      (∀ p, p ∈ collectedPermissions uAlice appGoogle ↔
        ((∃ g ∈ uAlice.groups, appGoogle ∈ g.applications ∧
            p ∈ g.permissions) ∨ p ∈ uAlice.permissions)) ∧
      r.permissions.Perm ((collectedPermissions uAlice appGoogle).map fmtApi) :=
  permissions_dedup_by_identity demoStore "alice" "Google" uAlice appGoogle
    (by decide) (by decide)

/-- C5: on every successful resolution, the returned permission-string
lists of both surfaces are sorted lexicographically ascending. -/
theorem permissions_sorted (s : Store) (un an : String)
    (user : User) (app : Application)
    (hu : findUserByUsername s un = some user)
    (ha : findApplicationByName s an = some app) :
    ∃ r, apiCheckAccess s un an = .ok r ∧
      r.permissions.Sorted (· ≤ ·) ∧
      (cliPermissionList user app).Sorted (· ≤ ·) :=
  ⟨_, apiCheckAccess_ok s un an user app hu ha,
    sorted_apiPermissionStrings user app, sorted_cliPermissionList user app⟩

/-- C5 witness: `alice` against `Google`. -/
theorem permissions_sorted_witness :
    ∃ r, apiCheckAccess demoStore "alice" "Google" = .ok r ∧
      r.permissions.Sorted (· ≤ ·) ∧
      (cliPermissionList uAlice appGoogle).Sorted (· ≤ ·) :=
  permissions_sorted demoStore "alice" "Google" uAlice appGoogle
    (by decide) (by decide)

/-- C6 counterexample: the CLI surface renders `Docs:Read` without the
space after the colon: the string "Docs: Read" mandated by the claim for
every surface does not occur in the CLI permission list even though the
permission is in the result set. -/
theorem cli_render_counterexample :
    pDocsRead ∈ collectedPermissions uAlice appGoogle ∧
    cliCheckAccess demoStore "alice" "Google" =
      .accessGranted "alice" "Google"
        ["Docs:Read", "Docs:Write", "Sheets:Read", "Sheets:Write"] ∧
    fmtCli pDocsRead ≠ pDocsRead.resource ++ ": " ++ pDocsRead.action ∧
    pDocsRead.resource ++ ": " ++ pDocsRead.action ∉
      cliPermissionList uAlice appGoogle := by
  decide

/-- C6 amended: on the HTTP API surface each permission in the result is
rendered as the resource, a colon, a single space, then the action; on the
CLI surface it is rendered as the resource, a colon (no space), then the
action. -/
theorem render_formats_per_surface (s : Store) (un an : String)
    (user : User) (app : Application)
    (hu : findUserByUsername s un = some user)
    (ha : findApplicationByName s an = some app) :
    ∃ r, apiCheckAccess s un an = .ok r ∧
      (∀ q ∈ r.permissions, ∃ p ∈ collectedPermissions user app,
        q = p.resource ++ ": " ++ p.action) ∧
      (∀ q ∈ cliPermissionList user app, ∃ p ∈ collectedPermissions user app,
        q = p.resource ++ ":" ++ p.action) := by
  refine ⟨_, apiCheckAccess_ok s un an user app hu ha, ?_, ?_⟩
  · intro q hq
    have hq2 : q ∈ (collectedPermissions user app).map fmtApi :=
      (apiPermissionStrings_perm user app).mem_iff.mp hq
    rcases List.mem_map.mp hq2 with ⟨p, hp, rfl⟩
    exact ⟨p, hp, rfl⟩
  · intro q hq
    have hq2 : q ∈ (collectedPermissions user app).map fmtCli :=
      (cliPermissionList_perm user app).mem_iff.mp hq
    rcases List.mem_map.mp hq2 with ⟨p, hp, rfl⟩
    exact ⟨p, hp, rfl⟩

/-- C6 amended witness: `alice` against `Google`. -/
theorem render_formats_per_surface_witness :
    ∃ r, apiCheckAccess demoStore "alice" "Google" = .ok r ∧
      (∀ q ∈ r.permissions, ∃ p ∈ collectedPermissions uAlice appGoogle,
        q = p.resource ++ ": " ++ p.action) ∧
      (∀ q ∈ cliPermissionList uAlice appGoogle,
        ∃ p ∈ collectedPermissions uAlice appGoogle,
          q = p.resource ++ ":" ++ p.action) :=
  render_formats_per_surface demoStore "alice" "Google" uAlice appGoogle
    (by decide) (by decide)

/-- C7: a resolution on either surface, threaded through the session state,
returns exactly the pure resolver result and leaves the store unchanged —
whether it succeeds or fails with a not-found error. -/
theorem resolver_pure (s : Store) (un an : String) :
    apiCheckAccessSt s un an = (apiCheckAccess s un an, s) ∧
    cliCheckAccessSt s un an = (cliCheckAccess s un an, s) := by
  cases hu : findUserByUsername s un with
  | none =>
    constructor <;>
      simp [apiCheckAccessSt, cliCheckAccessSt, queryUserSt,
        queryApplicationSt, apiCheckAccess, cliCheckAccess, hu]
  | some user =>
    cases ha : findApplicationByName s an with
    | none =>
      constructor <;>
        simp [apiCheckAccessSt, cliCheckAccessSt, queryUserSt,
          queryApplicationSt, apiCheckAccess, cliCheckAccess, hu, ha]
    | some app =>
      by_cases hacc : resolvedAccess user app <;>
        constructor <;>
          simp [apiCheckAccessSt, cliCheckAccessSt, queryUserSt,
            queryApplicationSt, apiCheckAccess, cliCheckAccess, hu, ha, hacc]

/-- C9: with exactly two CLI arguments (three entries in `argv`), a
not-found failure prints the error outcome and exits with status 0, and a
non-zero exit status occurs only on a wrong argument count. -/
theorem cli_exit_codes (s : Store) (prog un an : String) :
    (findUserByUsername s un = none →
      cliMain [prog, un, an] s = (.ran (.errUserNotFound un), 0)) ∧
    (∀ user, findUserByUsername s un = some user →
      findApplicationByName s an = none →
      cliMain [prog, un, an] s = (.ran (.errAppNotFound an), 0)) ∧
    (∀ argv : List String, (cliMain argv s).2 ≠ 0 → argv.length ≠ 3) ∧
    (∀ argv : List String, argv.length ≠ 3 → cliMain argv s = (.usage, 1)) := by
  refine ⟨?_, ?_, ?_, ?_⟩
  · intro hu
    simp [cliMain, cliCheckAccess, hu]
  · intro user hu ha
    simp [cliMain, cliCheckAccess, hu, ha]
  · intro argv hnz hlen
    apply hnz
    simp [cliMain, hlen]
  · intro argv hlen
    simp [cliMain, hlen]

/-- C9 witness: unknown user `zed` exits 0 with the error outcome; a
one-element `argv` exits 1 with the usage outcome. -/
theorem cli_exit_codes_witness :
    cliMain ["check_access.py", "zed", "Google"] demoStore =
      (.ran (.errUserNotFound "zed"), 0) ∧
    cliMain ["check_access.py"] demoStore = (.usage, 1) :=
  ⟨(cli_exit_codes demoStore "check_access.py" "zed" "Google").1 (by decide),
   (cli_exit_codes demoStore "check_access.py" "zed" "Google").2.2.2
     ["check_access.py"] (by decide)⟩

theorem runSteps_cons_raise (env : SyncEnv) (t : SyncStep)
    (rest : List SyncStep) (ht : env.raises t = true) :
    runSteps env (t :: rest) = ⟨[t], [], [syncErrorMsg]⟩ := by
  simp [runSteps, ht]

theorem runSteps_cons_token (env : SyncEnv) (rest : List SyncStep)
    (htok : env.tokenOk = false)
    (ht : env.raises SyncStep.syncUsers = false) :
    runSteps env (SyncStep.syncUsers :: rest) =
      ⟨SyncStep.syncUsers :: (runSteps env rest).executed,
       (runSteps env rest).committed,
       tokenFailMsg :: (runSteps env rest).log⟩ := by
  simp [runSteps, ht, htok]

theorem runSteps_cons_ok (env : SyncEnv) (t : SyncStep)
    (rest : List SyncStep) (ht : env.raises t = false)
    (hcond : t = SyncStep.syncUsers → env.tokenOk = true) :
    runSteps env (t :: rest) =
      ⟨t :: (runSteps env rest).executed,
       t :: (runSteps env rest).committed,
       (runSteps env rest).log⟩ := by
  simp only [runSteps, ht, Bool.false_eq_true, if_false]
  rw [if_neg]
  rintro ⟨rfl, htok⟩
  rw [hcond rfl] at htok
  exact absurd htok (by decide)

theorem runSteps_raise (env : SyncEnv) (s : SyncStep) (post : List SyncStep) :
    ∀ pre : List SyncStep, (∀ t ∈ pre, env.raises t = false) →
      env.tokenOk = true → env.raises s = true →
      runSteps env (pre ++ s :: post) = ⟨pre ++ [s], pre, [syncErrorMsg]⟩ := by
  intro pre
  induction pre with
  | nil =>
    intro _ _ hs
    exact runSteps_cons_raise env s post hs
  | cons t pre ih =>
    intro hpre htok hs
    have ht : env.raises t = false := hpre t (List.mem_cons_self t pre)
    have ihe := ih (fun x hx => hpre x (List.mem_cons_of_mem _ hx)) htok hs
    show runSteps env (t :: (pre ++ s :: post)) = _
    rw [runSteps_cons_ok env t _ ht (fun _ => htok), ihe]
    rfl

theorem runSteps_no_raise (env : SyncEnv) :
    ∀ l : List SyncStep, (∀ t ∈ l, env.raises t = false) →
      (runSteps env l).executed = l ∧
      (env.tokenOk = false → SyncStep.syncUsers ∈ l →
        tokenFailMsg ∈ (runSteps env l).log) := by
  intro l
  induction l with
  | nil =>
    exact fun _ => ⟨rfl, fun _ hmem => absurd hmem (List.not_mem_nil _)⟩
  | cons t rest ih =>
    intro hl
    have ht : env.raises t = false := hl t (List.mem_cons_self t rest)
    have ihe := ih (fun x hx => hl x (List.mem_cons_of_mem _ hx))
    by_cases hcond : t = SyncStep.syncUsers ∧ env.tokenOk = false
    · obtain ⟨rfl, htok⟩ := hcond
      rw [runSteps_cons_token env rest htok ht]
      exact ⟨by rw [ihe.1], fun _ _ => List.mem_cons_self _ _⟩
    · have hcond2 : t = SyncStep.syncUsers → env.tokenOk = true := by
        intro heq
        rcases Bool.eq_false_or_eq_true env.tokenOk with htv | hf
        · exact htv
        · exact absurd ⟨heq, hf⟩ hcond
      rw [runSteps_cons_ok env t rest ht hcond2]
      refine ⟨by rw [ihe.1], fun htok hmem => ?_⟩
      rcases List.mem_cons.mp hmem with heq | hmem2
      · rw [hcond2 heq.symm] at htok
        exact absurd htok (by decide)
      · exact ihe.2 htok hmem2

/-- C8 counterexample: with a failed token acquisition and no raising step,
the user-sync step fails (its failure is logged) yet every seeding step
still runs — contradicting "no seeding step runs after a failed user-sync
step". -/
theorem sync_token_counterexample :
    envTokenFail.tokenOk = false ∧
    tokenFailMsg ∈ (runSync envTokenFail).log ∧
    SyncStep.syncUsers ∈ (runSync envTokenFail).executed ∧
    SyncStep.createSampleGroups ∈ (runSync envTokenFail).executed ∧
    SyncStep.assignPermissionsToGroups ∈ (runSync envTokenFail).executed := by
  decide

/-- C8 amended: a step that raises an exception has the failure logged and
aborts all remaining steps, with the state committed by earlier steps left
in effect; however, a user-sync step whose token acquisition fails only
logs the failure and returns — the remaining (seeding) steps still run. -/
theorem sync_abort_on_raise :
    (∀ (env : SyncEnv) (pre : List SyncStep) (s : SyncStep)
        (post : List SyncStep),
      syncStepList = pre ++ s :: post →
      (∀ t ∈ pre, env.raises t = false) →
      env.tokenOk = true → env.raises s = true →
      (runSync env).executed = pre ++ [s] ∧
      (runSync env).committed = pre ∧
      (runSync env).log = [syncErrorMsg]) ∧
    (∀ env : SyncEnv, env.tokenOk = false → (∀ t, env.raises t = false) →
      (runSync env).executed = syncStepList ∧
      tokenFailMsg ∈ (runSync env).log) := by
  constructor
  · intro env pre s post hsplit hpre htok hs
    have h := runSteps_raise env s post pre hpre htok hs
    rw [runSync, hsplit, h]
    exact ⟨rfl, rfl, rfl⟩
  · intro env htok hraise
    have h := runSteps_no_raise env syncStepList (fun t _ => hraise t)
    exact ⟨h.1, h.2 htok (by decide)⟩

/-- C8 amended witness: a raise in the create-applications step halts the
run there with the three earlier steps committed; a token failure lets all
seven steps run. -/
theorem sync_abort_on_raise_witness :
    ((runSync envRaiseApps).executed =
        [SyncStep.syncUsers, SyncStep.createSampleGroups,
         SyncStep.assignUsersToGroups, SyncStep.createSampleApplications] ∧
      (runSync envRaiseApps).committed =
        [SyncStep.syncUsers, SyncStep.createSampleGroups,
         SyncStep.assignUsersToGroups] ∧
      (runSync envRaiseApps).log = [syncErrorMsg]) ∧
    ((runSync envTokenFail).executed = syncStepList ∧
      tokenFailMsg ∈ (runSync envTokenFail).log) :=
  ⟨sync_abort_on_raise.1 envRaiseApps
      [SyncStep.syncUsers, SyncStep.createSampleGroups,
       SyncStep.assignUsersToGroups]
      SyncStep.createSampleApplications
      [SyncStep.assignGroupsToApps, SyncStep.createSamplePermissions,
       SyncStep.assignPermissionsToGroups]
      (by decide) (by decide) rfl (by decide),
   sync_abort_on_raise.2 envTokenFail rfl (fun t => rfl)⟩

/-- C10: after `assign_permissions_to_groups`, the `i`-th group keeps its
identity but its permission set is exactly the rule-derived one: all
permissions if its lowercased name contains "admin", else the permissions
whose name contains "Write" if it contains "editor", else the permissions
whose name contains "Read" — independent of the group's previous
permissions, so anything outside that set is removed. -/
theorem assign_permissions_rule (groups : List Group)
    (perms : List Permission) (i : Nat) (h : i < groups.length) :
    ∃ h2 : i < (assignPermissionsToGroups groups perms).length,
      ((assignPermissionsToGroups groups perms).get ⟨i, h2⟩).id =
        (groups.get ⟨i, h⟩).id ∧
      ((assignPermissionsToGroups groups perms).get ⟨i, h2⟩).name =
        (groups.get ⟨i, h⟩).name ∧
      ∀ p : Permission,
        p ∈ ((assignPermissionsToGroups groups perms).get ⟨i, h2⟩).permissions
          ↔ p ∈ perms ∧
            (strContains (pyLower (groups.get ⟨i, h⟩).name) "admin" = true ∨
             (strContains (pyLower (groups.get ⟨i, h⟩).name) "admin" = false ∧
              strContains (pyLower (groups.get ⟨i, h⟩).name) "editor" = true ∧
              strContains p.name "Write" = true) ∨
             (strContains (pyLower (groups.get ⟨i, h⟩).name) "admin" = false ∧
              strContains (pyLower (groups.get ⟨i, h⟩).name) "editor" = false ∧
              strContains p.name "Read" = true)) := by
  have h2 : i < (assignPermissionsToGroups groups perms).length := by
    simpa [assignPermissionsToGroups] using h
  refine ⟨h2, ?_⟩
  have hget : (assignPermissionsToGroups groups perms).get ⟨i, h2⟩ =
      assignGroupRule perms (groups.get ⟨i, h⟩) := by
    simp [assignPermissionsToGroups]
  rw [hget]
  unfold assignGroupRule
  by_cases hadmin : strContains (pyLower (groups.get ⟨i, h⟩).name) "admin" = true
  · rw [if_pos hadmin]
    refine ⟨rfl, rfl, fun p => ?_⟩
    constructor
    · intro hp
      exact ⟨hp, Or.inl hadmin⟩
    · intro hp
      exact hp.1
  · rw [if_neg hadmin]
    rw [Bool.not_eq_true] at hadmin
    by_cases heditor :
        strContains (pyLower (groups.get ⟨i, h⟩).name) "editor" = true
    · rw [if_pos heditor]
      refine ⟨rfl, rfl, fun p => ?_⟩
      rw [List.mem_filter]
      constructor
      · rintro ⟨hp, hw⟩
        exact ⟨hp, Or.inr (Or.inl ⟨hadmin, heditor, hw⟩)⟩
      · rintro ⟨hp, hcon | ⟨_, _, hw⟩ | ⟨_, hcon, _⟩⟩
        · exact absurd (hadmin.symm.trans hcon) (by decide)
        · exact ⟨hp, hw⟩
        · exact absurd (heditor.symm.trans hcon) (by decide)
    · rw [if_neg heditor]
      rw [Bool.not_eq_true] at heditor
      refine ⟨rfl, rfl, fun p => ?_⟩
      rw [List.mem_filter]
      constructor
      · rintro ⟨hp, hr⟩
        exact ⟨hp, Or.inr (Or.inr ⟨hadmin, heditor, hr⟩)⟩
      · rintro ⟨hp, hcon | ⟨_, hcon, _⟩ | ⟨_, _, hr⟩⟩
        · exact absurd (hadmin.symm.trans hcon) (by decide)
        · exact absurd (heditor.symm.trans hcon) (by decide)
        · exact ⟨hp, hr⟩

/-- C10 witness: the `Editors` group of the seeded data at index 1. -/
theorem assign_permissions_rule_witness :
    ∃ h2 : 1 < (assignPermissionsToGroups [gAdmins, gEditors, gViewers]
        [pDocsRead, pDocsWrite, pSheetsRead, pSheetsWrite]).length,
      ((assignPermissionsToGroups [gAdmins, gEditors, gViewers]
          [pDocsRead, pDocsWrite, pSheetsRead, pSheetsWrite]).get
            ⟨1, h2⟩).id =
        ([gAdmins, gEditors, gViewers].get ⟨1, by decide⟩).id ∧
      ((assignPermissionsToGroups [gAdmins, gEditors, gViewers]
          [pDocsRead, pDocsWrite, pSheetsRead, pSheetsWrite]).get
            ⟨1, h2⟩).name =
        ([gAdmins, gEditors, gViewers].get ⟨1, by decide⟩).name ∧
      ∀ p : Permission,
        p ∈ ((assignPermissionsToGroups [gAdmins, gEditors, gViewers]
            [pDocsRead, pDocsWrite, pSheetsRead, pSheetsWrite]).get
              ⟨1, h2⟩).permissions
          ↔ p ∈ [pDocsRead, pDocsWrite, pSheetsRead, pSheetsWrite] ∧
            (strContains (pyLower ([gAdmins, gEditors, gViewers].get
                ⟨1, by decide⟩).name) "admin" = true ∨
             (strContains (pyLower ([gAdmins, gEditors, gViewers].get
                ⟨1, by decide⟩).name) "admin" = false ∧
              strContains (pyLower ([gAdmins, gEditors, gViewers].get
                ⟨1, by decide⟩).name) "editor" = true ∧
              strContains p.name "Write" = true) ∨
             (strContains (pyLower ([gAdmins, gEditors, gViewers].get
                ⟨1, by decide⟩).name) "admin" = false ∧
              strContains (pyLower ([gAdmins, gEditors, gViewers].get
                ⟨1, by decide⟩).name) "editor" = false ∧
              strContains p.name "Read" = true)) :=
  assign_permissions_rule [gAdmins, gEditors, gViewers]
    [pDocsRead, pDocsWrite, pSheetsRead, pSheetsWrite] 1 (by decide)

end AccessService
